import Mathlib

/-!
Verification of `cutplace/range.py`: the range mini-language parser and the
integer validator of the `Range` class.

The parser state machine, item resolution, overlap check and validator are
translated directly from `Range.__init__`, `Range._itemContains`,
`Range._itemsOverlap`, `Range._repr_item` and `Range.validate`.  The lexical
layer (Python's `tokenize` module together with `tools.isEofToken` and
`tools.isCommaToken`, which are not part of the sources at hand) is modelled
from the spec, as indicated on the definitions concerned.
-/

namespace Cutplace

/-- Items of a `Range`: a pair of optional lower and upper bounds, as built by
`Range.__init__` in `range.py` (Python tuples `(lower, upper)` with `None`
standing for an absent bound). -/
abbrev Item := Option Int × Option Int

/-- Lexical tokens fed to the range parser.  Modelled from the spec: the
source delegates lexing to Python's `tokenize` module and the helpers
`tools.isEofToken` / `tools.isCommaToken`, which are not in the sources at
hand; the spec describes the stream as `NUMBER`, `OP` (`-`, `:`), `COMMA` and
`EOF` tokens, any other token being a syntax error (`other` here).  The end of
the token list plays the role of the `EOF` token. -/
inductive Tok
  | num (n : Nat)
  | hyphen
  | colon
  | comma
  | other (c : Char)
deriving DecidableEq

/-- Errors raised as `RangeSyntaxError` in `range.py`, one constructor per
`raise` site in `Range.__init__`. -/
inductive RangeSyntaxError
  | extraNumber
  | numberNeedsColon
  | hyphenNeedsNumber
  | twoColons
  | badToken (c : Char)
  | hyphenAtEnd
  | bareColon
  | lowerGreater (lower upper : Int)
  | overlap (a b : Item)
deriving DecidableEq

/-- Error raised as `RangeValueError` by `Range.validate`, carrying the field
name and the offending value. -/
inductive RangeValueError
  | outOfRange (name : List Char) (value : Int)
deriving DecidableEq

/-- Errors observable when constructing a `Range`: a `RangeSyntaxError`, or
the `NameError` raised by the undefined name `true` on line 41 of `range.py`
(reached whenever the primary text is absent or blank and a default is
given). -/
inductive InitError
  | syntaxErr (e : RangeSyntaxError)
  | nameError
deriving DecidableEq

/-- Containment test `Range._itemContains` from `range.py`: `None` values are
never contained; otherwise containment in the closed/open-ended span. -/
def itemContains (item : Item) (value : Option Int) : Bool :=
  match value with
  | none => false
  | some v =>
    match item with
    | (none, none) => true
    | (none, some u) => decide (v ≤ u)
    | (some l, none) => decide (v ≥ l)
    | (some l, some u) => decide (v ≥ l) && decide (v ≤ u)

/-- Overlap test `Range._itemsOverlap` from `range.py`: the two bounds of
`other` are tested against the span of `a` (one-directional). -/
def itemsOverlap (a other : Item) : Bool :=
  itemContains a other.1 || itemContains a other.2

/-- Resolution of one comma-separated item from the parse state, following the
"Decide upon the result" case analysis of `Range.__init__` (lines 93-114);
`.ok none` is the "no item produced" outcome for an empty item. -/
def resolveItem (lower upper : Option Int) (colonFound : Bool) :
    Except RangeSyntaxError (Option Item) :=
  match lower, upper, colonFound with
  | none, none, true => .error .bareColon
  | none, none, false => .ok none
  | none, some u, _ => .ok (some (none, some u))
  | some l, some u, true =>
    if l > u then .error (.lowerGreater l u) else .ok (some (some l, some u))
  | some l, none, true => .ok (some (some l, none))
  | some l, _, false => .ok (some (some l, some l))

/-- Overlap check against every previously accepted item followed by append,
as performed on a produced item in `Range.__init__` (lines 115-121). -/
def addItem (items : List Item) (result : Option Item) :
    Except RangeSyntaxError (List Item) :=
  match result with
  | none => .ok items
  | some r =>
    match items.find? (fun it => itemsOverlap it r) with
    | some it => .error (.overlap it r)
    | none => .ok (items ++ [r])

/-- End-of-item processing of `Range.__init__`: the trailing-hyphen check,
item resolution and the overlap check/append. -/
def finishItem (items : List Item) (lower upper : Option Int)
    (colonFound afterHyphen : Bool) : Except RangeSyntaxError (List Item) :=
  if afterHyphen then .error .hyphenAtEnd
  else
    match resolveItem lower upper colonFound with
    | .error e => .error e
    | .ok res => addItem items res

/-- Token-consuming loop of `Range.__init__` (lines 52-123), flattened: the
inner `while` walks tokens updating `lower` / `upper` / `colonFound` /
`afterHyphen`; a comma finishes the current item and restarts with a fresh
state; the end of the stream finishes the last item. -/
def parseAux : List Tok → List Item → Option Int → Option Int → Bool → Bool →
    Except RangeSyntaxError (List Item)
  | [], items, lower, upper, colonFound, afterHyphen =>
    finishItem items lower upper colonFound afterHyphen
  | .num n :: rest, items, lower, upper, colonFound, afterHyphen =>
    if colonFound then
      match upper with
      | none =>
        parseAux rest items lower
          (some (if afterHyphen then -(n : Int) else (n : Int))) colonFound false
      | some _ => .error .extraNumber
    else
      match lower with
      | none =>
        parseAux rest items
          (some (if afterHyphen then -(n : Int) else (n : Int))) upper colonFound false
      | some _ => .error .numberNeedsColon
  | .hyphen :: rest, items, lower, upper, colonFound, afterHyphen =>
    if afterHyphen then .error .hyphenNeedsNumber
    else parseAux rest items lower upper colonFound true
  | .colon :: rest, items, lower, upper, colonFound, afterHyphen =>
    if afterHyphen then .error .hyphenNeedsNumber
    else if colonFound then .error .twoColons
    else parseAux rest items lower upper true afterHyphen
  | .comma :: rest, items, lower, upper, colonFound, afterHyphen =>
    match finishItem items lower upper colonFound afterHyphen with
    | .error e => .error e
    | .ok items2 => parseAux rest items2 none none false false
  | .other c :: _, _, _, _, _, afterHyphen =>
    if afterHyphen then .error .hyphenNeedsNumber else .error (.badToken c)

/-- Parse a whole token stream into the item list of a `Range`. -/
def parseTokens (ts : List Tok) : Except RangeSyntaxError (List Item) :=
  parseAux ts [] none none false false

/-- Value of a decimal digit character. -/
def digitVal (c : Char) : Nat := c.toNat - 48

/-- Accumulate a run of digit characters onto `m`, most significant first. -/
def digitsValFrom (m : Nat) (ds : List Char) : Nat :=
  ds.foldl (fun a c => 10 * a + digitVal c) m

/-- Numeric value of a run of digit characters. -/
def digitsVal (ds : List Char) : Nat := digitsValFrom 0 ds

/-- Token(s) of a single non-digit character.  Modelled from the spec: spaces
are insignificant between tokens; `-`, `:` and `,` are the only operator
tokens; any other character is a stray token (a syntax error downstream). -/
def charTok (c : Char) : List Tok :=
  if c = ' ' then []
  else if c = '-' then [.hyphen]
  else if c = ':' then [.colon]
  else if c = ',' then [.comma]
  else [.other c]

/-- Emit the number token held in the accumulator, if any. -/
def flushNum : Option Nat → List Tok
  | none => []
  | some n => [.num n]

/-- Maximal-munch lexer loop: `acc` holds the value of the digit run currently
being read.  Modelled from the spec (see `tokenize`). -/
def tokAux : List Char → Option Nat → List Tok
  | [], acc => flushNum acc
  | c :: rest, acc =>
    if c.isDigit then tokAux rest (some (10 * acc.getD 0 + digitVal c))
    else flushNum acc ++ charTok c ++ tokAux rest none

/-- Lexer for range specification texts.  Modelled from the spec: the source
uses Python's `tokenize` module (absent here) to split the text into `NUMBER`
tokens (maximal runs of digits), the operators `-` and `:`, commas and
end-of-stream, with whitespace insignificant between tokens. -/
def tokenize (s : List Char) : List Tok := tokAux s none

/-- Blankness test matching Python's `not text.strip()` on the texts of the
range mini-language. -/
def isBlank (s : List Char) : Bool := s.all (fun c => c == ' ')

/-- The `Range` object: the descriptive text and the parsed interval list,
both `None` for the unconstrained range (`range.py` lines 43-49). -/
structure Range where
  description : Option (List Char)
  items : Option (List Item)
deriving DecidableEq

/-- Constructor `Range.__init__` from `range.py`: resolve the effective text,
then tokenize and parse it.  When the primary text is absent or blank and a
default is given, line 41 (`hasText = true`) references the undefined name
`true` and raises `NameError` before anything else happens. -/
def rangeInit (text default : Option (List Char)) : Except InitError Range :=
  match text with
  | some s =>
    match isBlank s, default with
    | true, some _ => .error .nameError
    | true, none => .ok ⟨none, none⟩
    | false, _ =>
      match parseTokens (tokenize s) with
      | .error e => .error (.syntaxErr e)
      | .ok items => .ok ⟨some s, some items⟩
  | none =>
    match default with
    | some _ => .error .nameError
    | none => .ok ⟨none, none⟩

/-- Convenience entry point for concrete specification strings. -/
def Range.fromString (s : String) : Except InitError Range :=
  rangeInit (some s.data) none

/-- Membership test of one item as performed inside the scan loop of
`Range.validate` (lines 204-213).  For the unreachable `(None, None)` item the
code's `assert upper is not None` fires; under Python 2's `value <= None`
comparison the branch would yield `False`, which is the value used here. -/
def itemValid (it : Item) (v : Int) : Bool :=
  match it with
  | (none, some u) => decide (v ≤ u)
  | (none, none) => false
  | (some l, none) => decide (v ≥ l)
  | (some l, some u) => decide (v ≥ l) && decide (v ≤ u)

/-- Scan loop of `Range.validate`: stop at the first item containing the
value. -/
def validScan : List Item → Int → Bool
  | [], _ => false
  | it :: rest, v => if itemValid it v then true else validScan rest v

/-- Validator `Range.validate` from `range.py`: an absent item list accepts
everything; otherwise the value must be contained in some item. -/
def Range.validate (r : Range) (name : List Char) (value : Int) :
    Except RangeValueError Unit :=
  match r.items with
  | none => .ok ()
  | some items =>
    if validScan items value then .ok () else .error (.outOfRange name value)

/-- Well-formedness of an item: at least one bound present, and the lower
bound at most the upper bound whenever both are present. -/
def WfItem : Item → Prop
  | (none, none) => False
  | (some l, some u) => l ≤ u
  | (none, some _) => True
  | (some _, none) => True

instance : (it : Item) → Decidable (WfItem it)
  | (none, none) => instDecidableFalse
  | (some _, some _) => Int.decLe _ _
  | (none, some _) => instDecidableTrue
  | (some _, none) => instDecidableTrue

/-- Containment of a value in an interval as worded by the spec: absent lower
bound means `value <= upper`, absent upper bound means `value >= lower`, both
present means inclusive between.  The spec leaves the doubly-absent case
undefined; `true` is used here, so that the validator theorems genuinely rely
on such items never being stored. -/
def specContains (it : Item) (v : Int) : Bool :=
  match it with
  | (none, some u) => decide (v ≤ u)
  | (some l, none) => decide (l ≤ v)
  | (some l, some u) => decide (l ≤ v) && decide (v ≤ u)
  | (none, none) => true

/-- Whether the lower bound of an interval (minus infinity when absent) falls
within the span of `it`, as worded by the overlap claim. -/
def lowerBoundWithin : Option Int → Item → Bool
  | some v, it => specContains it v
  | none, (none, _) => true
  | none, (some _, _) => false

/-- Whether the upper bound of an interval (plus infinity when absent) falls
within the span of `it`, as worded by the overlap claim. -/
def upperBoundWithin : Option Int → Item → Bool
  | some v, it => specContains it v
  | none, (_, none) => true
  | none, (_, some _) => false

/-- Symmetric overlap as worded by the overlap claim: either interval has a
bound falling within the other's span, absent bounds treated as plus/minus
infinity. -/
def specOverlap (a b : Item) : Bool :=
  lowerBoundWithin a.1 b || upperBoundWithin a.2 b ||
    lowerBoundWithin b.1 a || upperBoundWithin b.2 a

/-- Decimal digits of `n`, most significant first, given recursion fuel of at
least `n + 1` (the rendering `"%s" % value` of a Python integer). -/
def natReprAux : Nat → Nat → List Char
  | 0, _ => []
  | fuel + 1, n =>
    if n < 10 then [Nat.digitChar n]
    else natReprAux fuel (n / 10) ++ [Nat.digitChar (n % 10)]

/-- Decimal rendering of a natural number. -/
def natRepr (n : Nat) : List Char := natReprAux (n + 1) n

/-- Decimal rendering of an integer, matching Python's `"%s" % value`. -/
def intRepr (i : Int) : List Char :=
  if i < 0 then '-' :: natRepr i.natAbs else natRepr i.toNat

/-- Token sequence the lexer produces for the rendering of an integer. -/
def intToks (i : Int) : List Tok :=
  if i < 0 then [.hyphen, .num i.natAbs] else [.num i.toNat]

/-- Canonical rendering `Range._repr_item` from `range.py`: `":u"`, `"l:"`,
`"l"` when both bounds are equal, `"l:u"` otherwise.  The `(None, None)` item
is unreachable for constructed ranges (the code's `assert upper is not None`
fires there); the text Python would produce with assertions disabled is
used. -/
def reprItem : Item → List Char
  | (none, none) => ':' :: "None".data
  | (none, some u) => ':' :: intRepr u
  | (some l, none) => intRepr l ++ [':']
  | (some l, some u) => if l = u then intRepr l else intRepr l ++ ':' :: intRepr u

/-- Token sequence the lexer produces for `reprItem` of a well-formed item. -/
def itemTok : Item → List Tok
  | (none, none) => []
  | (none, some u) => .colon :: intToks u
  | (some l, none) => intToks l ++ [.colon]
  | (some l, some u) => if l = u then intToks l else intToks l ++ .colon :: intToks u

/-- Canonical renderings of the items joined with commas (the round-trip text
of the spec's testable property). -/
def joinedRepr : List Item → List Char
  | [] => []
  | [it] => reprItem it
  | it :: rest => reprItem it ++ ',' :: joinedRepr rest

/-- Token sequences of the items joined with comma tokens. -/
def joinToks : List Item → List Tok
  | [] => []
  | [it] => itemTok it
  | it :: rest => itemTok it ++ .comma :: joinToks rest

/-- Parser state (`lower`, `upper`, `colonFound`) reached after consuming the
canonical tokens of one well-formed item starting from a fresh item state. -/
def itemState : Item → Option Int × Option Int × Bool
  | (none, none) => (none, none, false)
  | (none, some u) => (none, some u, true)
  | (some l, none) => (some l, none, true)
  | (some l, some u) =>
    if l = u then (some l, none, false) else (some l, some u, true)

/-- Whether a character list does not start with a digit (so that a preceding
digit run is maximal). -/
def headNotDigit : List Char → Bool
  | [] => true
  | c :: _ => !c.isDigit

/-- Lexemes of the range mini-language, used to state whitespace
insignificance: a specification text is a sequence of lexemes separated by
arbitrary runs of spaces. -/
inductive Lexeme
  | num (n : Nat)
  | hyphen
  | colon
  | comma
deriving DecidableEq

/-- Characters of a lexeme. -/
def lexChars : Lexeme → List Char
  | .num n => natRepr n
  | .hyphen => ['-']
  | .colon => [':']
  | .comma => [',']

/-- Token of a lexeme. -/
def lexTok : Lexeme → Tok
  | .num n => .num n
  | .hyphen => .hyphen
  | .colon => .colon
  | .comma => .comma

/-- Whether a lexeme is a number lexeme. -/
def isNumLex : Lexeme → Bool
  | .num _ => true
  | _ => false

/-- Whether a token is a number token. -/
def isNumTok : Tok → Bool
  | .num _ => true
  | _ => false

/-- A run of `g` spaces. -/
def sp (g : Nat) : List Char := List.replicate g ' '

/-- Text assembled from lexemes, each preceded by its own run of spaces, with
a final run of spaces at the end. -/
def renderG : List (Nat × Lexeme) → Nat → List Char
  | [], gEnd => sp gEnd
  | (g, l) :: rest, gEnd => sp g ++ lexChars l ++ renderG rest gEnd

/-! ## Invariants of the parser -/

theorem resolveItem_wf {lower upper : Option Int} {cf : Bool} {r : Item}
    (h : resolveItem lower upper cf = .ok (some r)) : WfItem r := by
  unfold resolveItem at h
  split at h
  · cases h
  · cases h
  · simp only [Except.ok.injEq, Option.some.injEq] at h
    subst h; trivial
  · split at h
    · cases h
    · simp only [Except.ok.injEq, Option.some.injEq] at h
      subst h
      simp only [WfItem]
      omega
  · simp only [Except.ok.injEq, Option.some.injEq] at h
    subst h; trivial
  · simp only [Except.ok.injEq, Option.some.injEq] at h
    subst h
    simp [WfItem]

theorem addItem_wf {items : List Item} {res : Option Item} {out : List Item}
    (hw : ∀ it ∈ items, WfItem it)
    (hp : items.Pairwise (fun a b => itemsOverlap a b = false))
    (hr : ∀ r, res = some r → WfItem r)
    (h : addItem items res = .ok out) :
    (∀ it ∈ out, WfItem it) ∧
      out.Pairwise (fun a b => itemsOverlap a b = false) := by
  unfold addItem at h
  split at h
  · simp only [Except.ok.injEq] at h
    subst h; exact ⟨hw, hp⟩
  · rename_i r
    split at h
    · cases h
    · rename_i hfind
      simp only [Except.ok.injEq] at h
      subst h
      constructor
      · intro it hit
        rcases List.mem_append.1 hit with h1 | h1
        · exact hw it h1
        · rw [List.mem_singleton] at h1
          subst h1
          exact hr it rfl
      · rw [List.pairwise_append]
        refine ⟨hp, List.pairwise_singleton _ _, ?_⟩
        intro a ha b hb
        rw [List.mem_singleton] at hb
        subst hb
        have := List.find?_eq_none.1 hfind a ha
        simpa using this

theorem finishItem_wf {items : List Item} {lower upper : Option Int}
    {cf ah : Bool} {out : List Item}
    (hw : ∀ it ∈ items, WfItem it)
    (hp : items.Pairwise (fun a b => itemsOverlap a b = false))
    (h : finishItem items lower upper cf ah = .ok out) :
    (∀ it ∈ out, WfItem it) ∧
      out.Pairwise (fun a b => itemsOverlap a b = false) := by
  unfold finishItem at h
  split at h
  · cases h
  · rcases hres : resolveItem lower upper cf with e | res
    · rw [hres] at h; cases h
    · rw [hres] at h
      refine addItem_wf hw hp (fun r hr => ?_) h
      subst hr
      exact resolveItem_wf hres

theorem parseAux_wf (ts : List Tok) :
    ∀ (items : List Item) (lower upper : Option Int) (cf ah : Bool)
      (out : List Item),
    (∀ it ∈ items, WfItem it) →
    items.Pairwise (fun a b => itemsOverlap a b = false) →
    parseAux ts items lower upper cf ah = .ok out →
    (∀ it ∈ out, WfItem it) ∧
      out.Pairwise (fun a b => itemsOverlap a b = false) := by
  induction ts with
  | nil =>
    intro items lower upper cf ah out hw hp h
    exact finishItem_wf hw hp h
  | cons t rest ih =>
    intro items lower upper cf ah out hw hp h
    cases t with
    | num n =>
      simp only [parseAux] at h
      split at h
      · rcases upper with - | u
        · exact ih _ _ _ _ _ _ hw hp h
        · cases h
      · rcases lower with - | l
        · exact ih _ _ _ _ _ _ hw hp h
        · cases h
    | hyphen =>
      simp only [parseAux] at h
      split at h
      · cases h
      · exact ih _ _ _ _ _ _ hw hp h
    | colon =>
      simp only [parseAux] at h
      split at h
      · cases h
      · split at h
        · cases h
        · exact ih _ _ _ _ _ _ hw hp h
    | comma =>
      simp only [parseAux] at h
      rcases hfi : finishItem items lower upper cf ah with e | items2
      · rw [hfi] at h; cases h
      · rw [hfi] at h
        obtain ⟨hw2, hp2⟩ := finishItem_wf hw hp hfi
        exact ih _ _ _ _ _ _ hw2 hp2 h
    | other c =>
      simp only [parseAux] at h
      split at h <;> cases h

theorem rangeInit_inv {t d : Option (List Char)} {r : Range} {items : List Item}
    (h : rangeInit t d = .ok r) (hi : r.items = some items) :
    ∃ s, t = some s ∧ isBlank s = false ∧
      parseTokens (tokenize s) = .ok items ∧ r = ⟨some s, some items⟩ := by
  unfold rangeInit at h
  split at h
  · rename_i s
    split at h
    · cases h
    · simp only [Except.ok.injEq] at h
      subst h
      cases hi
    · rename_i hblank
      split at h
      · cases h
      · rename_i its hparse
        simp only [Except.ok.injEq] at h
        subst h
        simp only [Option.some.injEq] at hi
        subst hi
        exact ⟨s, rfl, hblank, hparse, rfl⟩
  · split at h
    · cases h
    · simp only [Except.ok.injEq] at h
      subst h
      cases hi

theorem rangeInit_wf {t d : Option (List Char)} {r : Range} {items : List Item}
    (h : rangeInit t d = .ok r) (hi : r.items = some items) :
    (∀ it ∈ items, WfItem it) ∧
      items.Pairwise (fun a b => itemsOverlap a b = false) := by
  obtain ⟨s, -, -, hparse, -⟩ := rangeInit_inv h hi
  exact parseAux_wf _ _ _ _ _ _ _ (by simp) (by simp) hparse

/-! ## Decimal renderings and the lexer -/

theorem digitVal_digitChar : ∀ d : Nat, d < 10 →
    (Nat.digitChar d).isDigit = true ∧ digitVal (Nat.digitChar d) = d ∧
      (Nat.digitChar d == ' ') = false := by decide

theorem natReprAux_spec : ∀ fuel n : Nat, n < fuel →
    (∀ c ∈ natReprAux fuel n, c.isDigit = true) ∧ natReprAux fuel n ≠ [] ∧
      digitsVal (natReprAux fuel n) = n := by
  intro fuel
  induction fuel with
  | zero => intro n h; exact absurd h (Nat.not_lt_zero n)
  | succ fuel ih =>
    intro n hn
    by_cases h10 : n < 10
    · simp only [natReprAux, if_pos h10]
      refine ⟨?_, by simp, ?_⟩
      · intro c hc
        rw [List.mem_singleton] at hc
        subst hc
        exact (digitVal_digitChar n h10).1
      · simp only [digitsVal, digitsValFrom, List.foldl_cons, List.foldl_nil]
        rw [(digitVal_digitChar n h10).2.1]
        omega
    · simp only [natReprAux, if_neg h10]
      have hlt : n / 10 < fuel := by
        have := Nat.div_lt_self (show 0 < n by omega) (show 1 < 10 by omega)
        omega
      obtain ⟨hdig, hne, hval⟩ := ih (n / 10) hlt
      have hmod : n % 10 < 10 := Nat.mod_lt _ (by omega)
      refine ⟨?_, by simp, ?_⟩
      · intro c hc
        rcases List.mem_append.1 hc with hc | hc
        · exact hdig c hc
        · rw [List.mem_singleton] at hc
          subst hc
          exact (digitVal_digitChar _ hmod).1
      · simp only [digitsVal, digitsValFrom, List.foldl_append, List.foldl_cons,
          List.foldl_nil] at hval ⊢
        rw [hval, (digitVal_digitChar _ hmod).2.1]
        omega

theorem natRepr_spec (n : Nat) :
    (∀ c ∈ natRepr n, c.isDigit = true) ∧ natRepr n ≠ [] ∧
      digitsVal (natRepr n) = n :=
  natReprAux_spec (n + 1) n (Nat.lt_succ_self n)

theorem tokAux_digits : ∀ (ds : List Char), (∀ c ∈ ds, c.isDigit = true) →
    ∀ (rest : List Char) (m : Nat),
    tokAux (ds ++ rest) (some m) = tokAux rest (some (digitsValFrom m ds)) := by
  intro ds
  induction ds with
  | nil => intro _ rest m; rfl
  | cons c ds ih =>
    intro hdig rest m
    have hc : c.isDigit = true := hdig c (by simp)
    rw [List.cons_append]
    show (if c.isDigit = true then
        tokAux (ds ++ rest) (some (10 * (some m).getD 0 + digitVal c))
      else flushNum (some m) ++ charTok c ++ tokAux (ds ++ rest) none) = _
    rw [if_pos hc]
    exact ih (fun x hx => hdig x (by simp [hx])) rest _

theorem tokAux_flush : ∀ (s : List Char), headNotDigit s = true → ∀ v : Nat,
    tokAux s (some v) = .num v :: tokAux s none := by
  intro s hs v
  cases s with
  | nil => rfl
  | cons c rest =>
    have hc : c.isDigit = false := by
      simpa [headNotDigit] using hs
    simp [tokAux, hc, flushNum]

theorem tokenize_digits (ds rest : List Char)
    (hds : ∀ c ∈ ds, c.isDigit = true) (hne : ds ≠ [])
    (hrest : headNotDigit rest = true) :
    tokenize (ds ++ rest) = .num (digitsVal ds) :: tokenize rest := by
  cases ds with
  | nil => exact absurd rfl hne
  | cons c ds =>
    have hc : c.isDigit = true := hds c (by simp)
    rw [tokenize, List.cons_append]
    show (if c.isDigit = true then
        tokAux (ds ++ rest) (some (10 * (none : Option Nat).getD 0 + digitVal c))
      else flushNum none ++ charTok c ++ tokAux (ds ++ rest) none) = _
    rw [if_pos hc,
      tokAux_digits ds (fun x hx => hds x (by simp [hx])) rest _,
      tokAux_flush rest hrest]
    rfl

theorem tokenize_natRepr (n : Nat) (rest : List Char)
    (hrest : headNotDigit rest = true) :
    tokenize (natRepr n ++ rest) = .num n :: tokenize rest := by
  obtain ⟨hdig, hne, hval⟩ := natRepr_spec n
  rw [tokenize_digits _ _ hdig hne hrest, hval]

theorem tokenize_hyphen (rest : List Char) :
    tokenize ('-' :: rest) = .hyphen :: tokenize rest := rfl

theorem tokenize_colonTok (rest : List Char) :
    tokenize (':' :: rest) = .colon :: tokenize rest := rfl

theorem tokenize_commaTok (rest : List Char) :
    tokenize (',' :: rest) = .comma :: tokenize rest := rfl

theorem tokenize_sp (g : Nat) (rest : List Char) :
    tokenize (sp g ++ rest) = tokenize rest := by
  induction g with
  | zero => rfl
  | succ g ih => exact ih

theorem tokenize_intRepr (i : Int) (rest : List Char)
    (hrest : headNotDigit rest = true) :
    tokenize (intRepr i ++ rest) = intToks i ++ tokenize rest := by
  by_cases hi : i < 0
  · simp only [intRepr, intToks, if_pos hi]
    rw [List.cons_append, tokenize_hyphen, tokenize_natRepr _ _ hrest]
    rfl
  · simp only [intRepr, intToks, if_neg hi]
    rw [tokenize_natRepr _ _ hrest]
    rfl

theorem natRepr_not_blank (n : Nat) :
    (natRepr n).all (fun c => c == ' ') = false := by
  obtain ⟨hdig, hne, -⟩ := natRepr_spec n
  cases hrep : natRepr n with
  | nil => exact absurd hrep hne
  | cons c cs =>
    have hc : c.isDigit = true := hdig c (by rw [hrep]; simp)
    have hcs : (c == ' ') = false := by
      rcases hsp : c == ' ' with - | -
      · rfl
      · rw [beq_iff_eq] at hsp
        subst hsp
        cases hc
    simp [hcs]

theorem intRepr_not_blank (i : Int) :
    (intRepr i).all (fun c => c == ' ') = false := by
  by_cases hi : i < 0
  · simp only [intRepr, if_pos hi]
    simp
  · simp only [intRepr, if_neg hi]
    exact natRepr_not_blank _

/-! ## Tokenization of canonical renderings -/

theorem tokenize_reprItem (it : Item) (h : WfItem it) (rest : List Char)
    (hrest : headNotDigit rest = true) :
    tokenize (reprItem it ++ rest) = itemTok it ++ tokenize rest := by
  rcases it with ⟨l, u⟩
  rcases l with - | l <;> rcases u with - | u
  · exact h.elim
  · simp only [reprItem, itemTok]
    rw [List.cons_append, tokenize_colonTok, tokenize_intRepr _ _ hrest]
    rfl
  · simp only [reprItem, itemTok]
    rw [List.append_assoc, List.singleton_append,
      tokenize_intRepr _ _ (by rfl), tokenize_colonTok]
    simp [List.append_assoc]
  · by_cases hlu : l = u
    · simp only [reprItem, itemTok, if_pos hlu]
      rw [tokenize_intRepr _ _ hrest]
    · simp only [reprItem, itemTok, if_neg hlu]
      rw [List.append_assoc, List.cons_append,
        tokenize_intRepr _ _ (by rfl), tokenize_colonTok,
        tokenize_intRepr _ _ hrest]
      simp [List.append_assoc]

theorem reprItem_not_blank (it : Item) (h : WfItem it) :
    (reprItem it).all (fun c => c == ' ') = false := by
  rcases it with ⟨l, u⟩
  rcases l with - | l <;> rcases u with - | u
  · exact h.elim
  · simp [reprItem]
  · simp only [reprItem]
    rw [List.all_append]
    rw [intRepr_not_blank]
    rfl
  · by_cases hlu : l = u
    · simp only [reprItem, if_pos hlu]
      exact intRepr_not_blank _
    · simp only [reprItem, if_neg hlu]
      rw [List.all_append]
      rw [intRepr_not_blank]
      rfl

theorem tokenize_joinedRepr : ∀ items : List Item, (∀ it ∈ items, WfItem it) →
    tokenize (joinedRepr items) = joinToks items := by
  intro items
  induction items with
  | nil => intro _; rfl
  | cons it rest ih =>
    intro hwf
    cases rest with
    | nil =>
      have h := tokenize_reprItem it (hwf it (by simp)) [] rfl
      simpa [joinedRepr, joinToks, tokenize, tokAux, flushNum] using h
    | cons it2 rest2 =>
      simp only [joinedRepr, joinToks]
      rw [tokenize_reprItem it (hwf it (by simp))
          (',' :: joinedRepr (it2 :: rest2)) (by rfl),
        tokenize_commaTok, ih (fun x hx => hwf x (by simp [hx]))]

theorem joinedRepr_not_blank (it : Item) (rest : List Item) (h : WfItem it) :
    isBlank (joinedRepr (it :: rest)) = false := by
  cases rest with
  | nil =>
    show (joinedRepr [it]).all (fun c => c == ' ') = false
    exact reprItem_not_blank it h
  | cons it2 rest2 =>
    show (reprItem it ++ ',' :: joinedRepr (it2 :: rest2)).all
        (fun c => c == ' ') = false
    rw [List.all_append, reprItem_not_blank it h]
    rfl

/-! ## Reparsing canonical token sequences -/

theorem parseAux_lower (i : Int) (ts : List Tok) (items : List Item) :
    parseAux (intToks i ++ ts) items none none false false =
      parseAux ts items (some i) none false false := by
  by_cases hi : i < 0
  · simp only [intToks, if_pos hi, List.cons_append, List.singleton_append]
    simp [parseAux, abs_of_neg hi]
  · simp only [intToks, if_neg hi, List.singleton_append]
    simp [parseAux, Int.toNat_of_nonneg (show (0 : Int) ≤ i by omega)]

theorem parseAux_upper (i : Int) (ts : List Tok) (items : List Item)
    (l : Option Int) :
    parseAux (intToks i ++ ts) items l none true false =
      parseAux ts items l (some i) true false := by
  by_cases hi : i < 0
  · simp only [intToks, if_pos hi, List.cons_append, List.singleton_append]
    simp [parseAux, abs_of_neg hi]
  · simp only [intToks, if_neg hi, List.singleton_append]
    simp [parseAux, Int.toNat_of_nonneg (show (0 : Int) ≤ i by omega)]

theorem parseAux_itemTok (it : Item) (tail : List Tok) (items : List Item) :
    parseAux (itemTok it ++ tail) items none none false false =
      parseAux tail items (itemState it).1 (itemState it).2.1
        (itemState it).2.2 false := by
  rcases it with ⟨l, u⟩
  rcases l with - | l <;> rcases u with - | u
  · rfl
  · simp only [itemTok, itemState, List.cons_append]
    rw [show parseAux (.colon :: (intToks u ++ tail)) items none none false false
        = parseAux (intToks u ++ tail) items none none true false by
      simp [parseAux]]
    rw [parseAux_upper]
  · simp only [itemTok, itemState, List.append_assoc, List.singleton_append]
    rw [parseAux_lower]
    simp [parseAux]
  · by_cases hlu : l = u
    · simp only [itemTok, itemState, if_pos hlu]
      rw [parseAux_lower]
    · simp only [itemTok, itemState, if_neg hlu, List.append_assoc,
        List.cons_append]
      rw [parseAux_lower]
      rw [show parseAux (.colon :: (intToks u ++ tail)) items (some l) none
            false false
          = parseAux (intToks u ++ tail) items (some l) none true false by
        simp [parseAux]]
      rw [parseAux_upper]

theorem addItem_eval (items : List Item) (r : Item)
    (hov : items.find? (fun a => itemsOverlap a r) = none) :
    addItem items (some r) = .ok (items ++ [r]) := by
  show (match items.find? (fun it => itemsOverlap it r) with
    | some it => Except.error (RangeSyntaxError.overlap it r)
    | none => Except.ok (items ++ [r])) = _
  rw [hov]

theorem finishItem_itemState (it : Item) (h : WfItem it) (items : List Item)
    (hov : items.find? (fun a => itemsOverlap a it) = none) :
    finishItem items (itemState it).1 (itemState it).2.1
        (itemState it).2.2 false = .ok (items ++ [it]) := by
  rcases it with ⟨l, u⟩
  rcases l with - | l <;> rcases u with - | u
  · exact h.elim
  · show addItem items (some (none, some u)) = _
    exact addItem_eval items _ hov
  · show addItem items (some (some l, none)) = _
    exact addItem_eval items _ hov
  · by_cases hlu : l = u
    · subst hlu
      have hs : itemState (some l, some l) = (some l, none, false) := by
        simp [itemState]
      rw [hs]
      show addItem items (some (some l, some l)) = _
      exact addItem_eval items _ hov
    · have hle : l ≤ u := h
      have hs : itemState (some l, some u) = (some l, some u, true) := by
        simp [itemState, hlu]
      rw [hs]
      have hres : resolveItem (some l) (some u) true =
          .ok (some (some l, some u)) := by
        show (if l > u then Except.error (RangeSyntaxError.lowerGreater l u)
          else Except.ok (some (some l, some u))) = _
        rw [if_neg (show ¬l > u by omega)]
      show (match resolveItem (some l) (some u) true with
        | .error e => (Except.error e : Except RangeSyntaxError (List Item))
        | .ok res => addItem items res) = _
      rw [hres]
      show addItem items (some (some l, some u)) = _
      exact addItem_eval items _ hov

theorem parseAux_item_comma (it : Item) (h : WfItem it) (rest : List Tok)
    (items : List Item)
    (hov : items.find? (fun a => itemsOverlap a it) = none) :
    parseAux (itemTok it ++ .comma :: rest) items none none false false =
      parseAux rest (items ++ [it]) none none false false := by
  rw [parseAux_itemTok it]
  show (match finishItem items (itemState it).1 (itemState it).2.1
        (itemState it).2.2 false with
    | .error e => Except.error e
    | .ok items2 => parseAux rest items2 none none false false) = _
  rw [finishItem_itemState it h items hov]

theorem parseAux_item_eof (it : Item) (h : WfItem it) (items : List Item)
    (hov : items.find? (fun a => itemsOverlap a it) = none) :
    parseAux (itemTok it) items none none false false =
      .ok (items ++ [it]) := by
  have h1 := parseAux_itemTok it [] items
  rw [List.append_nil] at h1
  rw [h1]
  show finishItem items (itemState it).1 (itemState it).2.1
      (itemState it).2.2 false = _
  exact finishItem_itemState it h items hov

theorem parseAux_joinToks : ∀ (items acc : List Item),
    (∀ it ∈ items, WfItem it) →
    (acc ++ items).Pairwise (fun a b => itemsOverlap a b = false) →
    parseAux (joinToks items) acc none none false false = .ok (acc ++ items) := by
  intro items
  induction items with
  | nil =>
    intro acc _ _
    show finishItem acc none none false false = _
    simp [finishItem, resolveItem, addItem]
  | cons it rest ih =>
    intro acc hwf hp
    have hov : acc.find? (fun a => itemsOverlap a it) = none := by
      rw [List.find?_eq_none]
      intro a ha
      have hfalse : itemsOverlap a it = false := by
        rw [List.pairwise_append] at hp
        exact hp.2.2 a ha it (by simp)
      simp [hfalse]
    rw [List.append_cons] at hp
    cases rest with
    | nil =>
      show parseAux (itemTok it) acc none none false false = _
      rw [parseAux_item_eof it (hwf it (by simp)) acc hov]
    | cons it2 rest2 =>
      show parseAux (itemTok it ++ .comma :: joinToks (it2 :: rest2)) acc
          none none false false = _
      rw [parseAux_item_comma it (hwf it (by simp)) _ acc hov]
      rw [ih (acc ++ [it]) (fun x hx => hwf x (by simp [hx])) hp]
      simp

/-! ## Evaluation of the constructor on resolved texts -/

theorem rangeInit_eval (s : List Char) (items : List Item)
    (hblank : isBlank s = false)
    (hparse : parseTokens (tokenize s) = .ok items) :
    rangeInit (some s) none = .ok ⟨some s, some items⟩ := by
  simp only [rangeInit, hblank, hparse]

theorem rangeInit_eval_err (s : List Char) (e : RangeSyntaxError)
    (hblank : isBlank s = false)
    (hparse : parseTokens (tokenize s) = .error e) :
    rangeInit (some s) none = .error (.syntaxErr e) := by
  simp only [rangeInit, hblank, hparse]

theorem rangeInit_blank (s : List Char) (hb : isBlank s = true) :
    rangeInit (some s) none = .ok ⟨none, none⟩ := by
  simp only [rangeInit, hb]

theorem rangeInit_items_eq_parse (s : List Char) (hb : isBlank s = false) :
    (rangeInit (some s) none).map Range.items =
      Except.mapError InitError.syntaxErr
        ((parseTokens (tokenize s)).map some) := by
  rcases hp : parseTokens (tokenize s) with e | its
  · rw [rangeInit_eval_err s e hb hp]
    rfl
  · rw [rangeInit_eval s its hb hp]
    rfl

/-! ## The validator's scan -/

theorem validScan_iff {l : List Item} {v : Int} :
    validScan l v = true ↔ ∃ it ∈ l, itemValid it v = true := by
  induction l with
  | nil => simp [validScan]
  | cons it rest ih =>
    by_cases hvalid : itemValid it v = true
    · simp only [validScan]
      rw [if_pos hvalid]
      exact iff_of_true rfl ⟨it, List.mem_cons_self it rest, hvalid⟩
    · simp only [validScan]
      rw [if_neg hvalid, ih]
      constructor
      · rintro ⟨x, hx, hpx⟩
        exact ⟨x, List.mem_cons_of_mem _ hx, hpx⟩
      · rintro ⟨x, hx, hpx⟩
        rcases List.mem_cons.1 hx with rfl | hx
        · exact absurd hpx hvalid
        · exact ⟨x, hx, hpx⟩

theorem itemValid_eq_spec {it : Item} (h : WfItem it) (v : Int) :
    itemValid it v = specContains it v := by
  rcases it with ⟨l, u⟩
  rcases l with - | l <;> rcases u with - | u
  · exact h.elim
  · rfl
  · rfl
  · rfl

/-! ## Claim theorems (first batch) -/

/-- C10: every interval stored in a successfully constructed `Range` is
well-formed: at least one bound is present (no `(None, None)` item), and
whenever both bounds are present the lower bound is at most the upper bound
(`WfItem`). -/
theorem c10_theorem (t d : Option (List Char)) (r : Range) (items : List Item)
    (h : rangeInit t d = .ok r) (hi : r.items = some items) :
    ∀ it ∈ items, WfItem it :=
  (rangeInit_wf h hi).1

/-- Witness for `c10_theorem`: the two items of `"3:7,9"`. -/
theorem c10_witness : WfItem (some 3, some 7) ∧ WfItem (some 9, some 9) := by
  have h := c10_theorem (some ("3:7,9".data)) none
    ⟨some ("3:7,9".data), some [(some 3, some 7), (some 9, some 9)]⟩
    [(some 3, some 7), (some 9, some 9)] rfl rfl
  exact ⟨h _ (by simp), h _ (by simp)⟩

/-- C1 (amended): the overlap check of construction is one-directional — each
newly parsed item's bounds are tested against every previously accepted
item's span, and construction raises `RangeSyntaxError` exactly when that
test fires — so in every successfully constructed `Range` no later item has a
bound falling within an earlier item's span.  The symmetric definition of the
claim does not hold: a later item may strictly contain an earlier one. -/
theorem c1_theorem (t d : Option (List Char)) (r : Range) (items : List Item)
    (h : rangeInit t d = .ok r) (hi : r.items = some items) :
    items.Pairwise (fun a b => itemsOverlap a b = false) :=
  (rangeInit_wf h hi).2

/-- Witness for `c1_theorem`: the items of `"1:10,20:30"`. -/
theorem c1_witness :
    List.Pairwise (fun a b => itemsOverlap a b = false)
      [((some 1 : Option Int), (some 10 : Option Int)), (some 20, some 30)] :=
  c1_theorem (some ("1:10,20:30".data)) none
    ⟨some ("1:10,20:30".data), some [(some 1, some 10), (some 20, some 30)]⟩
    [(some 1, some 10), (some 20, some 30)] rfl rfl

/-- C1 counterexample: the two items of `"3:5,1:10"` overlap under the
claim's symmetric definition (each bound of `3:5` falls within the span of
`1:10`), yet construction succeeds in this order of appearance instead of
raising `RangeSyntaxError`. -/
theorem c1_counterexample :
    specOverlap (some 3, some 5) (some 1, some 10) = true ∧
    rangeInit (some ("3:5,1:10".data)) none =
      .ok ⟨some ("3:5,1:10".data), some [(some 3, some 5), (some 1, some 10)]⟩ :=
  ⟨by decide, rfl⟩

/-- C2 (code bug): when the primary text is null or blank and a non-blank
default is given, `Range.__init__` never parses the default: line 41 of
`range.py` (`hasText = true`) references the undefined name `true` (a typo
for `True`) and raises `NameError`, contradicting the constructor's own
docstring. -/
theorem c2_theorem :
    rangeInit none (some ("1:2".data)) = .error .nameError ∧
    rangeInit (some ("   ".data)) (some ("1:2".data)) = .error .nameError :=
  ⟨rfl, rfl⟩

/-- C4: a `Range` whose item list is absent (from null or blank text with no
default) validates every integer value, while a `Range` whose item list is
present but empty (reachable from the degenerate text `","`) raises
`RangeValueError` for every integer value; the two states are observationally
distinct under `validate`. -/
theorem c4_theorem :
    (∃ r, rangeInit none none = .ok r ∧ r.items = none ∧
      ∀ name v, r.validate name v = .ok ()) ∧
    (∃ r, rangeInit (some ("   ".data)) none = .ok r ∧ r.items = none ∧
      ∀ name v, r.validate name v = .ok ()) ∧
    (∃ r, rangeInit (some (",".data)) none = .ok r ∧ r.items = some [] ∧
      ∀ name v, r.validate name v = .error (.outOfRange name v)) :=
  ⟨⟨⟨none, none⟩, rfl, rfl, fun _ _ => rfl⟩,
   ⟨⟨none, none⟩, rfl, rfl, fun _ _ => rfl⟩,
   ⟨⟨some (",".data), some []⟩, rfl, rfl, fun _ _ => rfl⟩⟩

/-- C8: the malformed texts `"1::2"`, `"-:"`, `":"` and `"1:2:3"` each make
construction raise `RangeSyntaxError` (second colon in an item, hyphen not
followed by a number, bare colon, and an extra colon after both bounds), and
no partial `Range` is produced. -/
theorem c8_theorem :
    rangeInit (some ("1::2".data)) none = .error (.syntaxErr .twoColons) ∧
    rangeInit (some ("-:".data)) none = .error (.syntaxErr .hyphenNeedsNumber) ∧
    rangeInit (some (":".data)) none = .error (.syntaxErr .bareColon) ∧
    rangeInit (some ("1:2:3".data)) none = .error (.syntaxErr .twoColons) :=
  ⟨rfl, rfl, rfl, rfl⟩

/-- C7: bounds are inclusive and a leading hyphen negates the following
integer literal: `Range("1:40")` validates exactly the integers from 1 to 40,
and `Range("-5:5")` exactly those from -5 to 5. -/
theorem c7_theorem :
    rangeInit (some ("1:40".data)) none =
      .ok ⟨some ("1:40".data), some [(some 1, some 40)]⟩ ∧
    (∀ name v, Range.validate ⟨some ("1:40".data), some [(some 1, some 40)]⟩
        name v = .ok () ↔ 1 ≤ v ∧ v ≤ 40) ∧
    rangeInit (some ("-5:5".data)) none =
      .ok ⟨some ("-5:5".data), some [(some (-5), some 5)]⟩ ∧
    (∀ name v, Range.validate ⟨some ("-5:5".data), some [(some (-5), some 5)]⟩
        name v = .ok () ↔ -5 ≤ v ∧ v ≤ 5) := by
  refine ⟨rfl, fun name v => ?_, rfl, fun name v => ?_⟩
  · by_cases hv : 1 ≤ v ∧ v ≤ 40
    · obtain ⟨h1, h2⟩ := hv
      simp [Range.validate, validScan, itemValid, ge_iff_le, h1, h2]
    · have hit : itemValid (some 1, some 40) v = false := by
        simp only [itemValid, ge_iff_le, Bool.and_eq_false_iff,
          decide_eq_false_iff_not]
        omega
      simp [Range.validate, validScan, hit, hv]
  · by_cases hv : -5 ≤ v ∧ v ≤ 5
    · obtain ⟨h1, h2⟩ := hv
      simp [Range.validate, validScan, itemValid, ge_iff_le, h1, h2]
    · have hit : itemValid (some (-5), some 5) v = false := by
        simp only [itemValid, ge_iff_le, Bool.and_eq_false_iff,
          decide_eq_false_iff_not]
        omega
      simp [Range.validate, validScan, hit, hv]

/-- C3: for every constructed `Range` whose item list is present, every
non-empty name and every integer value, `validate` raises `RangeValueError`
iff no stored interval contains the value under the spec's containment rule,
and succeeds iff some stored interval contains it. -/
theorem c3_theorem (t d : Option (List Char)) (r : Range) (items : List Item)
    (name : List Char) (v : Int)
    (h : rangeInit t d = .ok r) (hi : r.items = some items) (hn : name ≠ []) :
    ((∃ e, r.validate name v = .error e) ↔
      ∀ it ∈ items, specContains it v = false) ∧
    (r.validate name v = .ok () ↔ ∃ it ∈ items, specContains it v = true) := by
  obtain ⟨s, -, -, -, hr⟩ := rangeInit_inv h hi
  have hwf := (rangeInit_wf h hi).1
  subst hr
  have hscan : validScan items v = true ↔
      ∃ it ∈ items, specContains it v = true := by
    rw [validScan_iff]
    constructor
    · rintro ⟨it, hit, hvalid⟩
      exact ⟨it, hit, (itemValid_eq_spec (hwf it hit) v) ▸ hvalid⟩
    · rintro ⟨it, hit, hvalid⟩
      exact ⟨it, hit, (itemValid_eq_spec (hwf it hit) v).symm ▸ hvalid⟩
  simp only [Range.validate]
  by_cases hv : validScan items v = true
  · rw [if_pos hv]
    refine ⟨?_, iff_of_true rfl (hscan.1 hv)⟩
    constructor
    · rintro ⟨e, he⟩
      cases he
    · intro hall
      obtain ⟨it, hit, hc⟩ := hscan.1 hv
      rw [hall it hit] at hc
      cases hc
  · rw [if_neg hv]
    have hfalse : ∀ it ∈ items, specContains it v = false := by
      intro it hit
      by_contra hc
      refine hv (hscan.2 ⟨it, hit, ?_⟩)
      revert hc
      cases specContains it v <;> simp
    refine ⟨iff_of_true ⟨_, rfl⟩ hfalse, ?_⟩
    constructor
    · intro he
      cases he
    · intro hex
      exact ((hv (hscan.2 hex)).elim)

/-- Witness for `c3_theorem`: the range `"1:40"`, name `"x"` and value 50. -/
theorem c3_witness :
    (∃ e, Range.validate ⟨some ("1:40".data), some [(some 1, some 40)]⟩
        ("x".data) 50 = .error e) ↔
      ∀ it ∈ [((some 1 : Option Int), (some 40 : Option Int))],
        specContains it 50 = false :=
  (c3_theorem (some ("1:40".data)) none
    ⟨some ("1:40".data), some [(some 1, some 40)]⟩
    [(some 1, some 40)] ("x".data) 50 rfl rfl (by decide)).1

/-! ## Claim theorems: bound ordering (C5) -/

theorem parse_pair (a b : Int) :
    parseTokens (intToks a ++ .colon :: intToks b) =
      if a > b then .error (.lowerGreater a b) else .ok [(some a, some b)] := by
  rw [parseTokens, parseAux_lower]
  rw [show parseAux (.colon :: intToks b) [] (some a) none false false
      = parseAux (intToks b) [] (some a) none true false by simp [parseAux]]
  rw [← List.append_nil (intToks b), parseAux_upper]
  show finishItem [] (some a) (some b) true false = _
  have hres : resolveItem (some a) (some b) true =
      if a > b then .error (.lowerGreater a b)
      else .ok (some (some a, some b)) := rfl
  show (match resolveItem (some a) (some b) true with
    | .error e => (Except.error e : Except RangeSyntaxError (List Item))
    | .ok res => addItem [] res) = _
  rw [hres]
  by_cases hab : a > b
  · rw [if_pos hab, if_pos hab]
  · rw [if_neg hab, if_neg hab]
    rfl

/-- C5: for every item of the form `"lower:upper"` with both bounds present
as integer literals, construction raises `RangeSyntaxError` exactly when
lower > upper; in particular `Range("5:2")` fails with a syntax error. -/
theorem c5_theorem :
    (∀ a b : Int,
      ((∃ e, rangeInit (some (intRepr a ++ ':' :: intRepr b)) none =
          .error (.syntaxErr e)) ↔ a > b)) ∧
    rangeInit (some ("5:2".data)) none =
      .error (.syntaxErr (.lowerGreater 5 2)) := by
  refine ⟨fun a b => ?_, rfl⟩
  have htok : tokenize (intRepr a ++ ':' :: intRepr b)
      = intToks a ++ .colon :: intToks b := by
    rw [tokenize_intRepr a _ (by rfl), tokenize_colonTok,
      ← List.append_nil (intRepr b), tokenize_intRepr b _ (by rfl)]
    simp [tokenize, tokAux, flushNum]
  have hblank : isBlank (intRepr a ++ ':' :: intRepr b) = false := by
    show (intRepr a ++ ':' :: intRepr b).all (fun c => c == ' ') = false
    rw [List.all_append, intRepr_not_blank]
    rfl
  constructor
  · rintro ⟨e, he⟩
    by_contra hab
    rw [rangeInit_eval _ [(some a, some b)] hblank
      (by rw [htok, parse_pair, if_neg hab])] at he
    cases he
  · intro hab
    exact ⟨.lowerGreater a b,
      rangeInit_eval_err _ _ hblank (by rw [htok, parse_pair, if_pos hab])⟩

/-! ## Claim theorems: round trip (C6) -/

/-- C6: for every specification text that parses into a non-empty item
sequence, rendering each item in canonical form, joining the items with
commas and re-parsing the result yields the same item sequence in the same
order. -/
theorem c6_theorem (t d : Option (List Char)) (r : Range) (items : List Item)
    (h : rangeInit t d = .ok r) (hi : r.items = some items)
    (hne : items ≠ []) :
    rangeInit (some (joinedRepr items)) none =
      .ok ⟨some (joinedRepr items), some items⟩ := by
  obtain ⟨hwf, hp⟩ := rangeInit_wf h hi
  have hblank : isBlank (joinedRepr items) = false := by
    cases items with
    | nil => exact absurd rfl hne
    | cons it rest => exact joinedRepr_not_blank it rest (hwf it (by simp))
  refine rangeInit_eval _ _ hblank ?_
  rw [tokenize_joinedRepr items hwf, parseTokens]
  have h1 := parseAux_joinToks items [] hwf (by simpa using hp)
  simpa using h1

/-- Witness for `c6_theorem`: re-parsing the canonical rendering of
`"1:10,20:30"`. -/
theorem c6_witness :
    rangeInit (some (joinedRepr [(some 1, some 10), (some 20, some 30)])) none
      = .ok ⟨some (joinedRepr [(some 1, some 10), (some 20, some 30)]),
          some [(some 1, some 10), (some 20, some 30)]⟩ :=
  c6_theorem (some ("1:10,20:30".data)) none
    ⟨some ("1:10,20:30".data), some [(some 1, some 10), (some 20, some 30)]⟩
    [(some 1, some 10), (some 20, some 30)] rfl rfl (by decide)

/-! ## Claim theorems: whitespace insignificance (C9) -/

theorem headNotDigit_renderG (ps : List (Nat × Lexeme)) (g : Nat)
    (h : ∀ p, ps.head? = some p → isNumLex p.2 = false ∨ 0 < p.1) :
    headNotDigit (renderG ps g) = true := by
  cases ps with
  | nil =>
    cases g with
    | zero => rfl
    | succ g => rfl
  | cons p rest =>
    obtain ⟨gp, l⟩ := p
    cases gp with
    | succ gp => rfl
    | zero =>
      rcases h (0, l) rfl with hl | hgap
      · cases l with
        | num n => cases hl
        | hyphen => rfl
        | colon => rfl
        | comma => rfl
      · exact absurd hgap (by omega)

theorem tokenize_renderG : ∀ (ps : List (Nat × Lexeme)) (g : Nat),
    ps.Chain'
      (fun p q => isNumLex p.2 = false ∨ isNumLex q.2 = false ∨ 0 < q.1) →
    tokenize (renderG ps g) = (ps.map Prod.snd).map lexTok := by
  intro ps
  induction ps with
  | nil =>
    intro g _
    rw [show renderG [] g = sp g ++ [] by simp [renderG], tokenize_sp]
    rfl
  | cons p rest ih =>
    intro g hchain
    obtain ⟨gp, l⟩ := p
    simp only [renderG, List.append_assoc]
    rw [tokenize_sp]
    have htail := hchain.tail
    cases l with
    | num n =>
      have hnd : headNotDigit (renderG rest g) = true := by
        apply headNotDigit_renderG
        intro q hq
        cases rest with
        | nil => cases hq
        | cons q' rest2 =>
          rw [List.head?_cons] at hq
          injection hq with hq
          subst hq
          rcases (List.chain'_cons.1 hchain).1 with h1 | h1
          · simp [isNumLex] at h1
          · exact h1
      rw [show lexChars (Lexeme.num n) = natRepr n from rfl,
        tokenize_natRepr n _ hnd, ih g htail]
      rfl
    | hyphen =>
      rw [show lexChars Lexeme.hyphen ++ renderG rest g
          = '-' :: renderG rest g from rfl, tokenize_hyphen, ih g htail]
      rfl
    | colon =>
      rw [show lexChars Lexeme.colon ++ renderG rest g
          = ':' :: renderG rest g from rfl, tokenize_colonTok, ih g htail]
      rfl
    | comma =>
      rw [show lexChars Lexeme.comma ++ renderG rest g
          = ',' :: renderG rest g from rfl, tokenize_commaTok, ih g htail]
      rfl

theorem parseAux_ok_chain : ∀ (ts : List Tok) (items : List Item)
    (lower upper : Option Int) (cf ah : Bool) (out : List Item),
    parseAux ts items lower upper cf ah = .ok out →
    ts.Chain' (fun a b => isNumTok a = false ∨ isNumTok b = false) := by
  intro ts
  induction ts with
  | nil => intro items lower upper cf ah out _; exact List.chain'_nil
  | cons t rest ih =>
    intro items lower upper cf ah out h
    rw [List.chain'_cons']
    constructor
    · intro b hb
      cases rest with
      | nil => cases hb
      | cons b' rest2 =>
        rw [List.head?_cons] at hb
        have hb2 : b' = b := by simpa using hb
        subst hb2
        cases t with
        | num n =>
          cases b' with
          | num m =>
            exfalso
            cases cf <;> cases upper <;> cases lower <;> simp [parseAux] at h
          | hyphen => exact Or.inr rfl
          | colon => exact Or.inr rfl
          | comma => exact Or.inr rfl
          | other c => exact Or.inr rfl
        | hyphen => exact Or.inl rfl
        | colon => exact Or.inl rfl
        | comma => exact Or.inl rfl
        | other c => exact Or.inl rfl
    · cases t with
      | num n =>
        cases cf with
        | true =>
          cases upper with
          | none =>
            simp only [parseAux] at h
            exact ih _ _ _ _ _ _ h
          | some u => simp [parseAux] at h
        | false =>
          cases lower with
          | none =>
            simp only [parseAux] at h
            exact ih _ _ _ _ _ _ h
          | some l => simp [parseAux] at h
      | hyphen =>
        cases ah with
        | true => simp [parseAux] at h
        | false =>
          simp only [parseAux, Bool.false_eq_true, if_false] at h
          exact ih _ _ _ _ _ _ h
      | colon =>
        cases ah with
        | true => simp [parseAux] at h
        | false =>
          cases cf with
          | true => simp [parseAux] at h
          | false =>
            simp only [parseAux, Bool.false_eq_true, if_false] at h
            exact ih _ _ _ _ _ _ h
      | comma =>
        simp only [parseAux] at h
        cases hfi : finishItem items lower upper cf ah with
        | error e => rw [hfi] at h; cases h
        | ok items2 =>
          rw [hfi] at h
          exact ih _ _ _ _ _ _ h
      | other c => cases ah <;> simp [parseAux] at h

theorem rangeInit_ok_items (s : List Char) (r : Range)
    (hb : isBlank s = false) (hok : rangeInit (some s) none = .ok r) :
    ∃ items, r = ⟨some s, some items⟩ ∧
      parseTokens (tokenize s) = .ok items := by
  rcases hp : parseTokens (tokenize s) with e | its
  · rw [rangeInit_eval_err s e hb hp] at hok
    cases hok
  · rw [rangeInit_eval s its hb hp] at hok
    injection hok with hok
    exact ⟨its, hok.symm, rfl⟩

theorem sp_blank (g : Nat) : isBlank (sp g) = true := by
  induction g with
  | zero => rfl
  | succ g ih =>
    simp only [isBlank] at ih ⊢
    show (' ' :: sp g).all (fun c => c == ' ') = true
    rw [List.all_cons, ih]
    rfl

theorem lexChars_not_blank (l : Lexeme) :
    (lexChars l).all (fun c => c == ' ') = false := by
  cases l with
  | num n => exact natRepr_not_blank n
  | hyphen => rfl
  | colon => rfl
  | comma => rfl

theorem renderG_not_blank (gp : Nat) (l : Lexeme)
    (rest : List (Nat × Lexeme)) (g : Nat) :
    isBlank (renderG ((gp, l) :: rest) g) = false := by
  simp only [isBlank, renderG, List.append_assoc, List.all_append,
    lexChars_not_blank]
  simp

/-- C9: whitespace in a specification text is insignificant.  A text is a
lexeme sequence interleaved with runs of spaces (`renderG`); `hread` states
that `ps` is a token-level reading of its text (a number lexeme directly
following another with no intervening space would be one merged `NUMBER`
token, so only spaced pairs of numbers are allowed).  For every valid text,
re-rendering the same lexemes with arbitrary space runs before the first
lexeme, between lexemes and after the last one constructs successfully with
the same interval sequence: inserting or removing such spaces never changes
the result and never turns a valid text into a syntax error. -/
theorem c9_theorem (ps qs : List (Nat × Lexeme)) (g g' : Nat) (r : Range)
    (hread : ps.Chain'
      (fun p q => isNumLex p.2 = false ∨ isNumLex q.2 = false ∨ 0 < q.1))
    (hmap : ps.map Prod.snd = qs.map Prod.snd)
    (hok : rangeInit (some (renderG ps g)) none = .ok r) :
    ∃ r2, rangeInit (some (renderG qs g')) none = .ok r2 ∧
      r2.items = r.items := by
  cases ps with
  | nil =>
    cases qs with
    | cons q qs' =>
      rw [List.map_nil, List.map_cons] at hmap
      cases hmap
    | nil =>
      rw [rangeInit_blank _
        (show isBlank (renderG ([] : List (Nat × Lexeme)) g) = true from
          sp_blank g)] at hok
      injection hok with hok
      refine ⟨⟨none, none⟩, rangeInit_blank _
        (show isBlank (renderG ([] : List (Nat × Lexeme)) g') = true from
          sp_blank g'), ?_⟩
      rw [← hok]
  | cons p ps' =>
    cases qs with
    | nil =>
      rw [List.map_cons, List.map_nil] at hmap
      cases hmap
    | cons q qs' =>
      obtain ⟨gp, l⟩ := p
      obtain ⟨gq, lq⟩ := q
      obtain ⟨items, hr, hparse⟩ :=
        rangeInit_ok_items _ r (renderG_not_blank gp l ps' g) hok
      have htok1 : tokenize (renderG ((gp, l) :: ps') g)
          = (((gp, l) :: ps').map Prod.snd).map lexTok :=
        tokenize_renderG _ g hread
      have hparseAux : parseAux (tokenize (renderG ((gp, l) :: ps') g))
          [] none none false false = .ok items := hparse
      have hchainTok := parseAux_ok_chain _ _ _ _ _ _ _ hparseAux
      rw [htok1] at hchainTok
      have hsame : ∀ x : Lexeme, isNumTok (lexTok x) = isNumLex x := by
        intro x
        cases x <;> rfl
      have hlexChain : ((((gp, l) :: ps').map Prod.snd)).Chain'
          (fun a b => isNumLex a = false ∨ isNumLex b = false) := by
        rw [List.chain'_map] at hchainTok
        refine List.Chain'.imp ?_ hchainTok
        intro a b hab
        rwa [hsame, hsame] at hab
      have hreadq : ((gq, lq) :: qs').Chain'
          (fun p2 q2 =>
            isNumLex p2.2 = false ∨ isNumLex q2.2 = false ∨ 0 < q2.1) := by
        rw [hmap] at hlexChain
        rw [List.chain'_map] at hlexChain
        refine List.Chain'.imp ?_ hlexChain
        intro a b hab
        rcases hab with h1 | h1
        · exact Or.inl h1
        · exact Or.inr (Or.inl h1)
      have htok2 := tokenize_renderG _ g' hreadq
      have hparse2 : parseTokens (tokenize (renderG ((gq, lq) :: qs') g'))
          = .ok items := by
        rw [htok2, ← hmap, ← htok1]
        exact hparse
      refine ⟨⟨some (renderG ((gq, lq) :: qs') g'), some items⟩,
        rangeInit_eval _ _ (renderG_not_blank gq lq qs' g') hparse2, ?_⟩
      rw [hr]

/-- Witness for `c9_theorem`: the text `"1: 40"` respaced as `" 1:40  "`. -/
theorem c9_witness :
    ∃ r2, rangeInit (some (renderG
        [(1, Lexeme.num 1), (0, Lexeme.colon), (0, Lexeme.num 40)] 2)) none
        = .ok r2 ∧
      r2.items = (Range.mk (some (renderG
          [(0, Lexeme.num 1), (0, Lexeme.colon), (1, Lexeme.num 40)] 0))
        (some [(some 1, some 40)])).items :=
  c9_theorem [(0, Lexeme.num 1), (0, Lexeme.colon), (1, Lexeme.num 40)]
    [(1, Lexeme.num 1), (0, Lexeme.colon), (0, Lexeme.num 40)] 0 2
    ⟨some (renderG
        [(0, Lexeme.num 1), (0, Lexeme.colon), (1, Lexeme.num 40)] 0),
      some [(some 1, some 40)]⟩
    (by simp [List.chain'_cons, isNumLex]) rfl rfl

end Cutplace
